import Mathlib

/-
Verification of the Integrated-Online-Boardgame-Platform repository.

Python dicts are embedded as insertion-ordered association lists
`List (String × α)`: lookup (`d[k]` / `d.get(k)`) returns the value of the
first (unique) matching key, assignment (`d[k] = v`) replaces the value in
place or appends a fresh key at the end, and deletion (`del d[k]`) removes
the key's entry.  Iteration order (`next(iter(d))`, `for ... in d`) is the
list order, which matches CPython's insertion-order guarantee.
-/

namespace Dict

def dictGet {α : Type} : List (String × α) → String → Option α
  | [], _ => none
  | p :: rest, k => if p.1 = k then some p.2 else dictGet rest k

def dictSet {α : Type} : List (String × α) → String → α → List (String × α)
  | [], k, v => [(k, v)]
  | p :: rest, k, v => if p.1 = k then (k, v) :: rest else p :: dictSet rest k v

def dictDel {α : Type} : List (String × α) → String → List (String × α)
  | [], _ => []
  | p :: rest, k => if p.1 = k then dictDel rest k else p :: dictDel rest k

@[simp] theorem dictGet_nil {α : Type} (k : String) : dictGet ([] : List (String × α)) k = none := rfl

@[simp] theorem dictGet_cons {α : Type} (p : String × α) (rest : List (String × α)) (k : String) :
    dictGet (p :: rest) k = if p.1 = k then some p.2 else dictGet rest k := rfl

theorem dictGet_dictSet_self {α : Type} (d : List (String × α)) (k : String) (v : α) :
    dictGet (dictSet d k v) k = some v := by
  induction d with
  | nil => simp [dictSet, dictGet]
  | cons p rest ih =>
    by_cases h : p.1 = k
    · simp [dictSet, dictGet, h]
    · simp [dictSet, dictGet, h, ih]

theorem dictGet_dictSet_ne {α : Type} (d : List (String × α)) (k k' : String) (v : α)
    (h : k' ≠ k) : dictGet (dictSet d k v) k' = dictGet d k' := by
  have h' : ¬ k = k' := Ne.symm h
  induction d with
  | nil => simp [dictSet, dictGet, h']
  | cons p rest ih =>
    by_cases hp : p.1 = k
    · simp [dictSet, dictGet, hp, h']
    · have e : dictSet (p :: rest) k v = p :: dictSet rest k v := by simp [dictSet, hp]
      rw [e]
      by_cases hp' : p.1 = k' <;> simp [dictGet, hp', ih]

theorem dictGet_dictDel_self {α : Type} (d : List (String × α)) (k : String) :
    dictGet (dictDel d k) k = none := by
  induction d with
  | nil => simp [dictDel]
  | cons p rest ih =>
    by_cases h : p.1 = k <;> simp [dictDel, dictGet, h, ih]

theorem dictGet_dictDel_ne {α : Type} (d : List (String × α)) (k k' : String)
    (h : k' ≠ k) : dictGet (dictDel d k) k' = dictGet d k' := by
  have h' : ¬ k = k' := Ne.symm h
  induction d with
  | nil => simp [dictDel]
  | cons p rest ih =>
    by_cases hp : p.1 = k
    · simp [dictDel, dictGet, hp, h', ih]
    · have e : dictDel (p :: rest) k = p :: dictDel rest k := by simp [dictDel, hp]
      rw [e]
      by_cases hp' : p.1 = k' <;> simp [dictGet, hp', ih]

theorem dictGet_mem {α : Type} {d : List (String × α)} {k : String} {v : α}
    (h : dictGet d k = some v) : (k, v) ∈ d := by
  induction d with
  | nil => simp [dictGet] at h
  | cons p rest ih =>
    obtain ⟨a, b⟩ := p
    by_cases hp : a = k
    · simp only [dictGet_cons, if_pos hp, Option.some.injEq] at h
      subst hp
      subst h
      exact List.mem_cons_self _ _
    · simp only [dictGet_cons, if_neg hp] at h
      exact List.mem_cons_of_mem _ (ih h)

theorem dictDel_sublist {α : Type} (d : List (String × α)) (k : String) :
    List.Sublist (dictDel d k) d := by
  induction d with
  | nil => simp [dictDel]
  | cons p rest ih =>
    by_cases h : p.1 = k
    · simpa [dictDel, h] using ih.cons p
    · simpa [dictDel, h] using ih.cons₂ p

theorem mem_keys_dictSet {α : Type} {d : List (String × α)} {k k' : String} {v : α}
    (h : k' ∈ (dictSet d k v).map Prod.fst) : k' ∈ d.map Prod.fst ∨ k' = k := by
  induction d with
  | nil =>
    simp [dictSet] at h
    right
    exact h
  | cons p rest ih =>
    by_cases hp : p.1 = k
    · simp only [dictSet, if_pos hp, List.map_cons, List.mem_cons] at h
      rcases h with h | h
      · right; exact h
      · left
        simp only [List.map_cons, List.mem_cons]
        right; exact h
    · simp only [dictSet, if_neg hp, List.map_cons, List.mem_cons] at h
      rcases h with h | h
      · left
        simp only [List.map_cons, List.mem_cons]
        left; exact h
      · rcases ih h with h2 | h2
        · left
          simp only [List.map_cons, List.mem_cons]
          right; exact h2
        · right; exact h2

theorem nodup_keys_dictSet {α : Type} {d : List (String × α)} (k : String) (v : α)
    (h : (d.map Prod.fst).Nodup) : ((dictSet d k v).map Prod.fst).Nodup := by
  induction d with
  | nil => simp [dictSet]
  | cons p rest ih =>
    by_cases hp : p.1 = k
    · simp only [List.map_cons, List.nodup_cons, hp] at h
      simp only [dictSet, if_pos hp, List.map_cons, List.nodup_cons]
      exact h
    · simp only [List.map_cons, List.nodup_cons] at h
      simp only [dictSet, if_neg hp, List.map_cons, List.nodup_cons]
      refine ⟨fun hmem => ?_, ih h.2⟩
      rcases mem_keys_dictSet hmem with h2 | h2
      · exact h.1 h2
      · exact hp h2

theorem nodup_keys_dictDel {α : Type} {d : List (String × α)} (k : String)
    (h : (d.map Prod.fst).Nodup) : ((dictDel d k).map Prod.fst).Nodup :=
  h.sublist (List.Sublist.map Prod.fst (dictDel_sublist d k))

end Dict

open Dict

namespace Roulette

/-
Embedding of `src/games/roulette_game/game.py`.  A `RouletteGame` instance is
its mutable attribute record; every method becomes a function from the old
state to the new state (plus the Python return value, when the method returns
one).
-/

structure PlayerInfo where
  ID : String
  order : Nat
deriving Repr, DecidableEq

structure GameState where
  room_id : String
  game_type : String
  test_message : String
  players : List (String × PlayerInfo)
  host : Option String
  started : Bool
deriving Repr, DecidableEq

/-- Modelled from the spec: `games/base.py` (`BaseGame.__init__`) is not under
`src/`; per the plugin contract (§4.2, §4.1) a freshly instantiated plugin is
bound to the room id and has no players yet, tracks no host, and is not
started.  `RouletteGame.__init__` then sets `game_type` and `test_message`
(those two assignments are in `src/games/roulette_game/game.py`). -/
def mkRouletteGame (room_id : String) : GameState :=
  { room_id := room_id
    game_type := "roulette"
    test_message := "Roulette游戏已初始化"
    players := []
    host := none
    started := false }

/-- `RouletteGame.join` (`game.py` lines 19-41). -/
def join (s : GameState) (account player_id : String) : GameState × Option Nat :=
  if (dictGet s.players account).isSome then (s, none)
  else
    let host' := match s.host with
      | none => some account
      | some h => some h
    let order := s.players.length + 1
    ({ s with host := host'
              players := s.players ++ [(account, ⟨player_id, order⟩)] },
     some order)

/-- `RouletteGame.leave` (`game.py` lines 43-53).  `del self.players[account]`
removes the account's entry; when the departing account was the host and
players remain, the host becomes `next(iter(self.players.keys()))`, the first
remaining key in insertion order. -/
def leave (s : GameState) (account : String) : GameState :=
  if (dictGet s.players account).isSome then
    let players' := dictDel s.players account
    if s.host = some account then
      match players'.head? with
      | some p => { s with players := players', host := some p.1 }
      | none => { s with players := players' }
    else { s with players := players' }
  else s

/-- `RouletteGame.start` (`game.py` lines 55-65). -/
def start (s : GameState) : GameState × Bool :=
  if 0 < s.players.length then ({ s with started := true }, true)
  else (s, false)

structure EventData where
  input : Option String
  timestamp : Option String
deriving Repr, DecidableEq

structure EventPayload where
  event_name : Option String
  event_data : Option EventData
deriving Repr, DecidableEq

structure EventResult where
  ok : Bool
  msg : String
  echo : Option String
  timestamp : Option String
  broadcast : Bool
deriving Repr, DecidableEq

/-- `RouletteGame.handle_event` (`game.py` lines 67-96).  The method only reads
`self`, so the state passes through unchanged; `data.get(...)` defaults are the
`Option.getD` calls. -/
def handle_event (s : GameState) (account : String) (data : EventPayload) :
    GameState × EventResult :=
  if data.event_name = some "test_input" then
    let user_input := ((data.event_data.getD ⟨none, none⟩).input).getD ""
    let ts := ((data.event_data.getD ⟨none, none⟩).timestamp).getD ""
    (s, { ok := true
          msg := "后端收到来自 " ++ account ++ " 的消息: " ++ user_input
          echo := some user_input
          timestamp := some ts
          broadcast := true })
  else
    (s, { ok := false
          msg := "未知事件类型"
          echo := none
          timestamp := none
          broadcast := false })

/-- One membership operation on a `RouletteGame`, for stating properties over
arbitrary call sequences. -/
inductive GameOp where
  | join (account player_id : String)
  | leave (account : String)
deriving Repr, DecidableEq

def stepOp (s : GameState) : GameOp → GameState
  | .join a pid => (join s a pid).1
  | .leave a => leave s a

/-- The game state after a sequence of join/leave calls on a fresh game. -/
def runOps (room_id : String) (ops : List GameOp) : GameState :=
  ops.foldl stepOp (mkRouletteGame room_id)

def isJoin : GameOp → Bool
  | .join _ _ => true
  | .leave _ => false

end Roulette

namespace Auth

/-
Embedding of `src/my_modules/platform/auth.py`.  The module-level mutable
dicts `active_tokens` and `user_tokens` form the state; `datetime.now()` is a
`now : Nat` parameter (seconds), and the random token from
`secrets.token_urlsafe(32)` in `generate_session_token` is a `newTok`
parameter of `create_token`.
-/

structure TokenInfo where
  account : String
  created_at : Nat
  expires_at : Nat
deriving Repr, DecidableEq

structure AuthState where
  active_tokens : List (String × TokenInfo)
  user_tokens : List (String × String)
deriving Repr, DecidableEq

/-- `timedelta(days=7)` in seconds (`auth.py` line 242). -/
def token_ttl : Nat := 7 * 24 * 60 * 60

/-- `create_token` (`auth.py` lines 214-252). -/
def create_token (st : AuthState) (now : Nat) (newTok account : String) :
    AuthState × String :=
  let active₁ :=
    match dictGet st.user_tokens account with
    | some old =>
      if (dictGet st.active_tokens old).isSome then dictDel st.active_tokens old
      else st.active_tokens
    | none => st.active_tokens
  let info : TokenInfo := { account := account, created_at := now, expires_at := now + token_ttl }
  ({ active_tokens := dictSet active₁ newTok info
     user_tokens := dictSet st.user_tokens account newTok },
   newTok)

/-- `verify_token` (`auth.py` lines 254-288).  `if not token` is the empty
string being falsy; `datetime.now() > expires_at` is `expires_at < now`. -/
def verify_token (st : AuthState) (now : Nat) (token : String) :
    AuthState × Option String :=
  if token = "" then (st, none)
  else
    match dictGet st.active_tokens token with
    | none => (st, none)
    | some info =>
      if info.expires_at < now then
        let active' := dictDel st.active_tokens token
        let users' :=
          if dictGet st.user_tokens info.account = some token
          then dictDel st.user_tokens info.account
          else st.user_tokens
        ({ active_tokens := active', user_tokens := users' }, none)
      else (st, some info.account)

/-- `revoke_token` (`auth.py` lines 290-315). -/
def revoke_token (st : AuthState) (token : String) : AuthState × Bool :=
  match dictGet st.active_tokens token with
  | none => (st, false)
  | some info =>
    let active' := dictDel st.active_tokens token
    let users' :=
      if dictGet st.user_tokens info.account = some token
      then dictDel st.user_tokens info.account
      else st.user_tokens
    ({ active_tokens := active', user_tokens := users' }, true)

/-
The on-disk user store (`users.json`): account → user record.
-/

structure UserRec where
  account : String
  ID : String
  password : String
  room : Option String
deriving Repr, DecidableEq

/-- `init_users` (`auth.py` lines 40-78).  The argument is the content of
`users.json` (`none` when the file does not exist, in which case an empty
store is written); when the file exists, every user record's `room` field is
set to `None` and the data is saved back. -/
def init_users : Option (List (String × UserRec)) → List (String × UserRec)
  | none => []
  | some data => data.map (fun p => (p.1, { p.2 with room := none }))

end Auth

namespace App

/-
Embedding of the discovery route `/available_games` in `src/app.py`
(lines 204-244) over the game registry's catalogue.
-/

/-- One registry entry, as produced by `register_game` in
`src/games/roulette_game/game.py` (lines 114-129): public metadata plus the
factory (the `'class'` key) and the page url. -/
structure GameEntry where
  id : String
  name : String
  description : String
  min_players : Nat
  max_players : Nat
  factory : String → Roulette.GameState
  url : String

/-- `register_game` (`src/games/roulette_game/game.py` lines 114-129). -/
def register_game : GameEntry :=
  { id := "roulette"
    name := "Roulette"
    description := "一个简单的测试游戏"
    min_players := 1
    max_players := 4
    factory := Roulette.mkRouletteGame
    url := "/roulette" }

/-- Modelled from the spec: `games/game_registry.py` is not under `src/`; per
§4.1 the registry's catalogue is the sequence of registered entries and
`get_available_games` (the spec's `list_available`) produces them in
registration order. -/
def get_available_games (registry : List GameEntry) : List GameEntry :=
  registry

/-- One item of the `/available_games` JSON response: exactly the five public
metadata fields that `app.py` copies out of a registry entry. -/
structure GameInfo where
  id : String
  name : String
  description : String
  min_players : Nat
  max_players : Nat
deriving Repr, DecidableEq

/-- The `/available_games` handler (`src/app.py` lines 204-244): the `for`
loop appending one five-field record per registry entry. -/
def available_games (registry : List GameEntry) : List GameInfo :=
  (get_available_games registry).foldl
    (fun game_list game =>
      game_list ++ [{ id := game.id
                      name := game.name
                      description := game.description
                      min_players := game.min_players
                      max_players := game.max_players }])
    []

end App

open Roulette Auth App

/-
Claim theorems.
-/

/-- C3: `RouletteGame.start` returns true iff at least one player is present
(the `min_players = 1` threshold of the catalogue entry is met); on success the
`started` flag becomes true, and on failure the game state is unchanged. -/
theorem roulette_start_iff_min_players (s : GameState) :
    ((Roulette.start s).2 = true ↔ register_game.min_players ≤ s.players.length) ∧
    ((Roulette.start s).2 = true → (Roulette.start s).1.started = true) ∧
    ((Roulette.start s).2 = false → (Roulette.start s).1 = s) := by
  by_cases h : 0 < s.players.length
  · simp [Roulette.start, h, register_game]
    omega
  · simp [Roulette.start, h, register_game]
    exact List.length_eq_zero.mp (by omega)

/-- Witness for C3 at concrete states: a game with one player starts
successfully and gets `started = true`; an empty game's `start` leaves the
state unchanged. -/
theorem roulette_start_iff_min_players_witness :
    (Roulette.start (runOps "r" [.join "A" "ia"])).1.started = true ∧
    (Roulette.start (mkRouletteGame "r")).1 = mkRouletteGame "r" :=
  ⟨(roulette_start_iff_min_players (runOps "r" [.join "A" "ia"])).2.1 (by decide),
   (roulette_start_iff_min_players (mkRouletteGame "r")).2.2 (by decide)⟩

/-- C4: for any payload whose `event_name` is not `'test_input'`,
`RouletteGame.handle_event` returns `ok = false` with a (non-empty) message
and `broadcast = false`, raises no exception (it is a total function), and
leaves the game state unchanged. -/
theorem roulette_handle_event_unknown (s : GameState) (account : String)
    (data : EventPayload) (h : data.event_name ≠ some "test_input") :
    (handle_event s account data).1 = s ∧
    (handle_event s account data).2.ok = false ∧
    (handle_event s account data).2.broadcast = false ∧
    (handle_event s account data).2.msg ≠ "" := by
  refine ⟨?_, ?_, ?_, ?_⟩ <;> simp [handle_event, h]

/-- Witness for C4: an unknown event name on a fresh game. -/
theorem roulette_handle_event_unknown_witness :
    (handle_event (mkRouletteGame "r") "alice"
        { event_name := some "bogus", event_data := none }).2.ok = false :=
  (roulette_handle_event_unknown (mkRouletteGame "r") "alice"
    { event_name := some "bogus", event_data := none } (by decide)).2.1

/-- C5: a `test_input` event with input `s` yields `ok = true`,
`broadcast = true` and `echo = s`, for every account and every input. -/
theorem roulette_handle_event_test_input (s : GameState) (account input : String)
    (ts : Option String) :
    (handle_event s account
        { event_name := some "test_input"
          event_data := some { input := some input, timestamp := ts } }).2.ok = true ∧
    (handle_event s account
        { event_name := some "test_input"
          event_data := some { input := some input, timestamp := ts } }).2.broadcast = true ∧
    (handle_event s account
        { event_name := some "test_input"
          event_data := some { input := some input, timestamp := ts } }).2.echo = some input := by
  simp [handle_event]

/-- C6: joining with an account that is already present returns `None` and
leaves the whole game state (players, their orders, and the host) unchanged. -/
theorem roulette_join_present_noop (s : GameState) (account player_id : String)
    (h : (dictGet s.players account).isSome) :
    Roulette.join s account player_id = (s, none) := by
  simp only [Roulette.join, if_pos h]

/-- Witness for C6: rejoining after a successful join is a no-op. -/
theorem roulette_join_present_noop_witness :
    Roulette.join (runOps "r" [.join "A" "ia"]) "A" "other" =
      (runOps "r" [.join "A" "ia"], none) :=
  roulette_join_present_noop (runOps "r" [.join "A" "ia"]) "A" "other" (by decide)

theorem foldl_append_singleton {α β : Type} (f : α → β) (l : List α) (acc : List β) :
    l.foldl (fun r x => r ++ [f x]) acc = acc ++ l.map f := by
  induction l generalizing acc with
  | nil => simp
  | cons x xs ih => simp [ih]

/-- C8: the `/available_games` response lists the registered games in registry
order, one item per entry, each carrying exactly the public metadata fields
`id`, `name`, `description`, `min_players`, `max_players` (the `GameInfo`
record has no other field, so the factory is never included). -/
theorem available_games_public_fields (registry : List GameEntry) :
    available_games registry =
      (get_available_games registry).map
        (fun game => { id := game.id
                       name := game.name
                       description := game.description
                       min_players := game.min_players
                       max_players := game.max_players }) := by
  unfold available_games
  exact foldl_append_singleton _ _ []

/-- C10: `init_users` on an existing user store sets every stored user's room
pointer to `None`, whatever it was before. -/
theorem init_users_clears_rooms (store : List (String × UserRec))
    (k : String) (u : UserRec) (h : (k, u) ∈ init_users (some store)) :
    u.room = none := by
  simp only [init_users] at h
  rcases List.mem_map.mp h with ⟨p, _, he⟩
  have h2 : ({ p.2 with room := none } : UserRec) = u := congrArg Prod.snd he
  rw [← h2]

/-- Witness for C10: a user whose stored room pointer was `room1` comes out of
`init_users` with no room. -/
theorem init_users_clears_rooms_witness :
    ({ account := "alice", ID := "A", password := "pw", room := none } : UserRec).room = none :=
  init_users_clears_rooms
    [("alice", { account := "alice", ID := "A", password := "pw", room := some "room1" })]
    "alice" { account := "alice", ID := "A", password := "pw", room := none } (by decide)

/-- When the host leaves a game with players remaining, the new host is the
first remaining entry of the (insertion-ordered) players dict: every other
remaining player occurs strictly after it in the original dict order. -/
theorem leave_host_first_remaining (s : GameState) (a : String)
    (h1 : s.host = some a) (h2 : (dictGet s.players a).isSome)
    (h3 : (Roulette.leave s a).players ≠ []) :
    ∃ b, (Roulette.leave s a).host = some b ∧
      (dictGet (Roulette.leave s a).players b).isSome ∧
      ∀ c, (dictGet (Roulette.leave s a).players c).isSome → c ≠ b →
        List.Sublist [b, c] (s.players.map Prod.fst) := by
  cases hh : (dictDel s.players a).head? with
  | none =>
    exfalso
    apply h3
    have hnil : dictDel s.players a = [] := by
      cases e : dictDel s.players a with
      | nil => rfl
      | cons q t => rw [e] at hh; simp at hh
    simp [Roulette.leave, h2, h1, hh, hnil]
  | some p =>
    obtain ⟨t, ht⟩ : ∃ t, dictDel s.players a = p :: t := by
      cases e : dictDel s.players a with
      | nil => rw [e] at hh; simp at hh
      | cons q t =>
        rw [e] at hh
        simp only [List.head?_cons, Option.some.injEq] at hh
        exact ⟨t, by rw [hh]⟩
    have hl : Roulette.leave s a =
        { s with players := dictDel s.players a, host := some p.1 } := by
      simp [Roulette.leave, h2, h1, hh]
    refine ⟨p.1, ?_, ?_, ?_⟩
    · rw [hl]
    · rw [hl]
      simp [ht, dictGet]
    · intro c hc hcb
      rw [hl] at hc
      obtain ⟨v, hv⟩ := Option.isSome_iff_exists.mp hc
      have hmem : (c, v) ∈ dictDel s.players a := dictGet_mem hv
      rw [ht] at hmem
      rcases List.mem_cons.mp hmem with he | hmem2
      · exact absurd (congrArg Prod.fst he) hcb
      · have h5 : List.Sublist [p, (c, v)] (p :: t) :=
          List.Sublist.cons₂ p (List.singleton_sublist.mpr hmem2)
        have h6 : List.Sublist [p, (c, v)] s.players := by
          rw [← ht] at h5
          exact h5.trans (dictDel_sublist s.players a)
        simpa using List.Sublist.map Prod.fst h6

/-- C1 counterexample: on the join/leave sequence
`h, a, b, p join; a, b leave; q joins; host h leaves`, the code promotes `p`
(stored order 4) although the other remaining player `q` has the strictly
smaller stored join order 3 — so the new host is not the remaining player with
the smallest join order. -/
theorem roulette_host_smallest_order_counterexample :
    (Roulette.leave (runOps "r" [.join "h" "ih", .join "a" "ia", .join "b" "ib",
        .join "p" "ip", .leave "a", .leave "b", .join "q" "iq"]) "h").host = some "p" ∧
    dictGet (Roulette.leave (runOps "r" [.join "h" "ih", .join "a" "ia", .join "b" "ib",
        .join "p" "ip", .leave "a", .leave "b", .join "q" "iq"]) "h").players "q" =
      some { ID := "iq", order := 3 } ∧
    dictGet (Roulette.leave (runOps "r" [.join "h" "ih", .join "a" "ia", .join "b" "ib",
        .join "p" "ip", .leave "a", .leave "b", .join "q" "iq"]) "h").players "p" =
      some { ID := "ip", order := 4 } ∧
    ("q" : String) ≠ "p" := by
  decide

/-- C1 (amended): for every sequence of join/leave operations, when the
current host leaves while at least one other player remains, the new host is
the earliest remaining player in the players dict's insertion order (every
other remaining player occurs after it in the pre-leave dict) — which need not
be the remaining player with the smallest stored `order` number, since order
numbers are reused after leaves. -/
theorem roulette_host_reassign_insertion_order (room_id : String) (ops : List GameOp)
    (a : String)
    (h1 : (runOps room_id ops).host = some a)
    (h2 : (dictGet (runOps room_id ops).players a).isSome)
    (h3 : (Roulette.leave (runOps room_id ops) a).players ≠ []) :
    ∃ b, (Roulette.leave (runOps room_id ops) a).host = some b ∧
      (dictGet (Roulette.leave (runOps room_id ops) a).players b).isSome ∧
      ∀ c, (dictGet (Roulette.leave (runOps room_id ops) a).players c).isSome → c ≠ b →
        List.Sublist [b, c] ((runOps room_id ops).players.map Prod.fst) :=
  leave_host_first_remaining (runOps room_id ops) a h1 h2 h3

/-- Witness for the amended C1: on the run `A joins, B joins`, host `A`
leaves and `B` is promoted. -/
theorem roulette_host_reassign_insertion_order_witness :
    ∃ b, (Roulette.leave (runOps "r" [.join "A" "ia", .join "B" "ib"]) "A").host = some b ∧
      (dictGet (Roulette.leave (runOps "r" [.join "A" "ia", .join "B" "ib"]) "A").players b).isSome ∧
      ∀ c, (dictGet (Roulette.leave (runOps "r" [.join "A" "ia", .join "B" "ib"]) "A").players c).isSome →
        c ≠ b →
        List.Sublist [b, c] ((runOps "r" [.join "A" "ia", .join "B" "ib"]).players.map Prod.fst) :=
  roulette_host_reassign_insertion_order "r" [.join "A" "ia", .join "B" "ib"] "A"
    (by decide) (by decide) (by decide)

/-- Invariant maintained by join-only call sequences on a fresh game: the
stored order numbers are exactly `1, 2, …, n` in dict order, and the host is
the first player of the dict (the first joiner). -/
def JoinInv (s : GameState) : Prop :=
  s.players.map (fun p => p.2.order) = List.range' 1 s.players.length ∧
  s.host = s.players.head?.map Prod.fst

theorem joinInv_mk (room_id : String) : JoinInv (mkRouletteGame room_id) := by
  simp [JoinInv, mkRouletteGame]

theorem joinInv_join (s : GameState) (hinv : JoinInv s) (a pid : String) :
    JoinInv (Roulette.join s a pid).1 := by
  obtain ⟨ho, hh⟩ := hinv
  by_cases h : (dictGet s.players a).isSome
  · simpa [Roulette.join, h] using ⟨ho, hh⟩
  · have hj : (Roulette.join s a pid).1 =
        { s with host := match s.host with | none => some a | some x => some x
                 players := s.players ++ [(a, ⟨pid, s.players.length + 1⟩)] } := by
      simp [Roulette.join, h]
    rw [hj]
    constructor
    · simp only [List.map_append, List.map_cons, List.map_nil, List.length_append,
        List.length_cons, List.length_nil]
      rw [ho]
      have hcat := @List.range'_concat 1 1 s.players.length
      simp only [one_mul] at hcat
      have hn : s.players.length + (0 + 1) = s.players.length + 1 := by omega
      rw [hn, hcat, Nat.add_comm 1 s.players.length]
    · cases e : s.players with
      | nil =>
        rw [e] at hh
        simp only [List.head?_nil, Option.map_none'] at hh
        simp [e, hh]
      | cons q rest =>
        rw [e] at hh
        simp only [List.head?_cons, Option.map_some'] at hh
        simp [e, hh]

theorem joinInv_run (ops : List GameOp) :
    ∀ s : GameState, JoinInv s → (∀ op ∈ ops, isJoin op = true) →
      JoinInv (ops.foldl stepOp s) := by
  induction ops with
  | nil => intro s hs _; simpa using hs
  | cons op rest ih =>
    intro s hs hops
    have hop : isJoin op = true := hops op (List.mem_cons_self _ _)
    have hrest : ∀ o ∈ rest, isJoin o = true :=
      fun o ho => hops o (List.mem_cons_of_mem _ ho)
    cases op with
    | join a pid =>
      simpa [List.foldl_cons, stepOp] using ih ((Roulette.join s a pid).1)
        (joinInv_join s hs a pid) hrest
    | leave a => simp [isJoin] at hop

/-- C2 counterexample: on the sequence `A joins (order 1), B joins (order 2),
A leaves, C joins`, the third successful join over the game's lifetime returns
order 2 (not 3), and the two present players `B` and `C` share the order
number 2 — so order numbers are neither sequential over the lifetime nor
pairwise distinct among present players. -/
theorem roulette_join_order_counterexample :
    (runOps "r" [.join "A" "ia", .join "B" "ib", .leave "A", .join "C" "ic"]).players.map
        (fun p => p.2.order) = [2, 2] ∧
    (Roulette.join (runOps "r" [.join "A" "ia", .join "B" "ib", .leave "A"]) "C" "ic").2 =
      some 2 := by
  decide

/-- C2 (amended): a successful `join` adds the account at the end of the
players dict and returns the order number `(current player count) + 1`; on
join-only call sequences (no interleaved leaves) the orders are therefore
exactly `1, 2, …, n` — the k-th successful join returns k, order numbers of
present players are pairwise distinct — and the first joiner is the host. -/
theorem roulette_join_adds_sequential (room_id : String) (ops : List GameOp) :
    (∀ a pid, dictGet (runOps room_id ops).players a = none →
      (Roulette.join (runOps room_id ops) a pid).2 =
        some ((runOps room_id ops).players.length + 1) ∧
      (Roulette.join (runOps room_id ops) a pid).1.players.map Prod.fst =
        (runOps room_id ops).players.map Prod.fst ++ [a]) ∧
    ((∀ op ∈ ops, isJoin op = true) →
      (runOps room_id ops).players.map (fun p => p.2.order) =
        List.range' 1 (runOps room_id ops).players.length ∧
      ((runOps room_id ops).players.map (fun p => p.2.order)).Nodup ∧
      (runOps room_id ops).host = (runOps room_id ops).players.head?.map Prod.fst) := by
  constructor
  · intro a pid hnone
    have h : ¬ (dictGet (runOps room_id ops).players a).isSome = true := by
      simp [hnone]
    constructor
    · simp [Roulette.join, h]
    · simp [Roulette.join, h]
  · intro hops
    have hinv : JoinInv (runOps room_id ops) :=
      joinInv_run ops (mkRouletteGame room_id) (joinInv_mk room_id) hops
    refine ⟨hinv.1, ?_, hinv.2⟩
    rw [hinv.1]
    exact List.nodup_range' _ _ _ (by omega)

/-- Witness for the amended C2: after `A` and `B` join a fresh game, a join of
the absent `C` returns order 3, and the present orders are duplicate-free. -/
theorem roulette_join_adds_sequential_witness :
    (Roulette.join (runOps "r" [.join "A" "ia", .join "B" "ib"]) "C" "ic").2 =
      some ((runOps "r" [.join "A" "ia", .join "B" "ib"]).players.length + 1) ∧
    ((runOps "r" [.join "A" "ia", .join "B" "ib"]).players.map (fun p => p.2.order)).Nodup :=
  ⟨((roulette_join_adds_sequential "r" [.join "A" "ia", .join "B" "ib"]).1 "C" "ic"
      (by decide)).1,
   ((roulette_join_adds_sequential "r" [.join "A" "ia", .join "B" "ib"]).2
      (by decide)).2.1⟩

/-- The token-store consistency invariant: account keys are unique, token keys
are unique, and every account's token in `user_tokens` has a record in
`active_tokens` naming that same account. -/
def TokenInv (st : AuthState) : Prop :=
  (st.user_tokens.map Prod.fst).Nodup ∧
  (st.active_tokens.map Prod.fst).Nodup ∧
  ∀ a t, dictGet st.user_tokens a = some t →
    ∃ info, dictGet st.active_tokens t = some info ∧ info.account = a

/-- Deleting a token from `active_tokens` together with its (matching) user
pointer preserves the invariant; this is the common shape of the expiry branch
of `verify_token` and of `revoke_token`. -/
theorem tokenInv_del (st : AuthState) (h : TokenInv st) (token : String)
    (info : TokenInfo) (hg : dictGet st.active_tokens token = some info) :
    TokenInv { active_tokens := dictDel st.active_tokens token
               user_tokens := if dictGet st.user_tokens info.account = some token
                              then dictDel st.user_tokens info.account
                              else st.user_tokens } := by
  obtain ⟨hu, ha, hlink⟩ := h
  refine ⟨?_, nodup_keys_dictDel _ ha, ?_⟩
  · by_cases hc : dictGet st.user_tokens info.account = some token
    · rw [if_pos hc]
      exact nodup_keys_dictDel _ hu
    · rw [if_neg hc]
      exact hu
  · intro a t hget
    by_cases hc : dictGet st.user_tokens info.account = some token
    · rw [if_pos hc] at hget
      by_cases hacc : a = info.account
      · subst hacc
        rw [dictGet_dictDel_self] at hget
        cases hget
      · rw [dictGet_dictDel_ne _ _ _ hacc] at hget
        obtain ⟨info', hi', hia⟩ := hlink a t hget
        have htne : t ≠ token := by
          intro he
          subst he
          rw [hg] at hi'
          injection hi' with hi2
          exact hacc (by rw [← hia, ← hi2])
        refine ⟨info', ?_, hia⟩
        rw [dictGet_dictDel_ne _ _ _ htne]
        exact hi'
    · rw [if_neg hc] at hget
      obtain ⟨info', hi', hia⟩ := hlink a t hget
      have htne : t ≠ token := by
        intro he
        subst he
        rw [hg] at hi'
        injection hi' with hi2
        apply hc
        rw [hi2, hia]
        exact hget
      refine ⟨info', ?_, hia⟩
      rw [dictGet_dictDel_ne _ _ _ htne]
      exact hi'

/-- Inserting a fresh token for `account` (the tail of `create_token`)
preserves the invariant, for any active table `A` the remaining accounts still
link into. -/
theorem tokenInv_insert (A : List (String × TokenInfo)) (U : List (String × String))
    (hUn : (U.map Prod.fst).Nodup) (hAn : (A.map Prod.fst).Nodup)
    (now : Nat) (newTok account : String)
    (hfreshA : dictGet A newTok = none)
    (hlink2 : ∀ a t, a ≠ account → dictGet U a = some t →
      ∃ info, dictGet A t = some info ∧ info.account = a) :
    TokenInv { active_tokens :=
                 dictSet A newTok { account := account, created_at := now
                                    expires_at := now + token_ttl }
               user_tokens := dictSet U account newTok } := by
  refine ⟨nodup_keys_dictSet _ _ hUn, nodup_keys_dictSet _ _ hAn, ?_⟩
  intro a t hget
  by_cases hacc : a = account
  · subst hacc
    rw [dictGet_dictSet_self] at hget
    injection hget with ht
    subst ht
    exact ⟨_, dictGet_dictSet_self _ _ _, rfl⟩
  · rw [dictGet_dictSet_ne _ _ _ _ hacc] at hget
    obtain ⟨info, hi, hia⟩ := hlink2 a t hacc hget
    have htne : t ≠ newTok := by
      intro he
      subst he
      rw [hfreshA] at hi
      cases hi
    refine ⟨info, ?_, hia⟩
    rw [dictGet_dictSet_ne _ _ _ _ htne]
    exact hi

theorem tokenInv_create (st : AuthState) (h : TokenInv st) (now : Nat)
    (newTok account : String)
    (hfresh : dictGet st.active_tokens newTok = none) :
    TokenInv (create_token st now newTok account).1 := by
  obtain ⟨hu, ha, hlink⟩ := h
  cases hold : dictGet st.user_tokens account with
  | none =>
    have he : (create_token st now newTok account).1 =
        { active_tokens :=
            dictSet st.active_tokens newTok
              { account := account, created_at := now, expires_at := now + token_ttl }
          user_tokens := dictSet st.user_tokens account newTok } := by
      simp [create_token, hold]
    rw [he]
    exact tokenInv_insert _ _ hu ha now newTok account hfresh
      (fun a t _ hget => hlink a t hget)
  | some old =>
    by_cases hoa : (dictGet st.active_tokens old).isSome
    · have he : (create_token st now newTok account).1 =
          { active_tokens :=
              dictSet (dictDel st.active_tokens old) newTok
                { account := account, created_at := now, expires_at := now + token_ttl }
            user_tokens := dictSet st.user_tokens account newTok } := by
        simp [create_token, hold, hoa]
      rw [he]
      refine tokenInv_insert _ _ hu (nodup_keys_dictDel _ ha) now newTok account ?_ ?_
      · by_cases hno : newTok = old
        · rw [hno]
          exact dictGet_dictDel_self _ _
        · rw [dictGet_dictDel_ne _ _ _ hno]
          exact hfresh
      · intro a t hacc hget
        obtain ⟨info, hi, hia⟩ := hlink a t hget
        obtain ⟨infoOld, hiOld, hiaOld⟩ := hlink account old hold
        have htne : t ≠ old := by
          intro heq
          subst heq
          rw [hi] at hiOld
          injection hiOld with h2
          exact hacc (by rw [← hia, h2, hiaOld])
        refine ⟨info, ?_, hia⟩
        rw [dictGet_dictDel_ne _ _ _ htne]
        exact hi
    · have he : (create_token st now newTok account).1 =
          { active_tokens :=
              dictSet st.active_tokens newTok
                { account := account, created_at := now, expires_at := now + token_ttl }
            user_tokens := dictSet st.user_tokens account newTok } := by
        simp [create_token, hold, hoa]
      rw [he]
      exact tokenInv_insert _ _ hu ha now newTok account hfresh
        (fun a t _ hget => hlink a t hget)

theorem tokenInv_verify (st : AuthState) (h : TokenInv st) (now : Nat) (token : String) :
    TokenInv (verify_token st now token).1 := by
  by_cases ht : token = ""
  · simpa [verify_token, ht] using h
  · cases hg : dictGet st.active_tokens token with
    | none => simpa [verify_token, ht, hg] using h
    | some info =>
      by_cases hexp : info.expires_at < now
      · have he : (verify_token st now token).1 =
            { active_tokens := dictDel st.active_tokens token
              user_tokens := if dictGet st.user_tokens info.account = some token
                             then dictDel st.user_tokens info.account
                             else st.user_tokens } := by
          simp [verify_token, ht, hg, hexp]
        rw [he]
        exact tokenInv_del st h token info hg
      · simpa [verify_token, ht, hg, hexp] using h

theorem tokenInv_revoke (st : AuthState) (h : TokenInv st) (token : String) :
    TokenInv (revoke_token st token).1 := by
  cases hg : dictGet st.active_tokens token with
  | none => simpa [revoke_token, hg] using h
  | some info =>
    have he : (revoke_token st token).1 =
        { active_tokens := dictDel st.active_tokens token
          user_tokens := if dictGet st.user_tokens info.account = some token
                         then dictDel st.user_tokens info.account
                         else st.user_tokens } := by
      simp [revoke_token, hg]
    rw [he]
    exact tokenInv_del st h token info hg

/-- `create_token` deletes the account's previous token from the active
table before inserting the new one. -/
theorem create_token_removes_old (st1 : AuthState) (now2 : Nat)
    (tok1 tok2 account : String)
    (h2 : dictGet st1.user_tokens account = some tok1)
    (h1 : (dictGet st1.active_tokens tok1).isSome = true)
    (hne : tok1 ≠ tok2) :
    dictGet (create_token st1 now2 tok2 account).1.active_tokens tok1 = none := by
  have he : (create_token st1 now2 tok2 account).1.active_tokens =
      dictSet (dictDel st1.active_tokens tok1) tok2
        { account := account, created_at := now2, expires_at := now2 + token_ttl } := by
    simp [create_token, h2, h1]
  rw [he, dictGet_dictSet_ne _ _ _ _ hne]
  exact dictGet_dictDel_self _ _

/-- C9: `create_token`, `verify_token` and `revoke_token` preserve the
token-store invariant (each account has at most one token and that token's
active record names the same account); `create_token` first deletes the
account's previous token, so after a second login the earlier token no longer
resolves.  Freshness of the randomly generated token (`secrets.token_urlsafe`)
is the hypothesis `dictGet … = none`. -/
theorem token_store_invariant (st : AuthState) (h : TokenInv st) :
    (∀ now newTok account, dictGet st.active_tokens newTok = none →
      TokenInv (create_token st now newTok account).1) ∧
    (∀ now token, TokenInv (verify_token st now token).1) ∧
    (∀ token, TokenInv (revoke_token st token).1) ∧
    (∀ now1 now2 now3 tok1 tok2 account,
      dictGet st.active_tokens tok1 = none →
      dictGet (create_token st now1 tok1 account).1.active_tokens tok2 = none →
      (verify_token
          (create_token (create_token st now1 tok1 account).1 now2 tok2 account).1
          now3 tok1).2 = none) := by
  refine ⟨fun now newTok account hfresh => tokenInv_create st h now newTok account hfresh,
    fun now token => tokenInv_verify st h now token,
    fun token => tokenInv_revoke st h token, ?_⟩
  intro now1 now2 now3 tok1 tok2 account hf1 hf2
  have h1 : dictGet (create_token st now1 tok1 account).1.active_tokens tok1 =
      some { account := account, created_at := now1, expires_at := now1 + token_ttl } :=
    dictGet_dictSet_self _ _ _
  have hne12 : tok1 ≠ tok2 := by
    intro heq
    subst heq
    rw [hf2] at h1
    cases h1
  have h2 : dictGet (create_token st now1 tok1 account).1.user_tokens account =
      some tok1 :=
    dictGet_dictSet_self _ _ _
  have h3 : dictGet
      (create_token (create_token st now1 tok1 account).1 now2 tok2 account).1.active_tokens
      tok1 = none :=
    create_token_removes_old _ now2 tok1 tok2 account h2 (by rw [h1]; rfl) hne12
  by_cases ht : tok1 = ""
  · simp [verify_token, ht]
  · simp [verify_token, ht, h3]

/-- Witness for C9: starting from the empty token store, logging in twice with
fresh tokens `t1` then `t2` leaves `t1` unresolvable. -/
theorem token_store_invariant_witness :
    (verify_token
        (create_token (create_token { active_tokens := [], user_tokens := [] } 0 "t1" "alice").1
          1 "t2" "alice").1
        2 "t1").2 = none :=
  (token_store_invariant { active_tokens := [], user_tokens := [] }
      (by simp [TokenInv])).2.2.2 0 1 2 "t1" "t2" "alice" (by decide) (by decide)

/-- C7: `verify_token` returns `None` exactly when the token is empty, has no
record in the active table, or is past its stored expiry time; an expired
token's records are removed from both tables as a side effect; otherwise it
returns the stored account — in particular the account a `create_token` call
stored for that token. -/
theorem verify_token_resolve (st : AuthState) (now : Nat) (token : String) :
    ((verify_token st now token).2 = none ↔
      token = "" ∨ dictGet st.active_tokens token = none ∨
        ∃ info, dictGet st.active_tokens token = some info ∧ info.expires_at < now) ∧
    (∀ info, dictGet st.active_tokens token = some info → token ≠ "" →
      info.expires_at < now →
      dictGet (verify_token st now token).1.active_tokens token = none ∧
      dictGet (verify_token st now token).1.user_tokens info.account ≠ some token) ∧
    (∀ info, dictGet st.active_tokens token = some info → token ≠ "" →
      ¬ info.expires_at < now →
      verify_token st now token = (st, some info.account)) ∧
    (∀ newTok account now2, newTok ≠ "" → now2 ≤ now + token_ttl →
      (verify_token (create_token st now newTok account).1 now2 newTok).2 =
        some account) := by
  refine ⟨?_, ?_, ?_, ?_⟩
  · by_cases ht : token = ""
    · simp [verify_token, ht]
    · cases hg : dictGet st.active_tokens token with
      | none => simp [verify_token, ht, hg]
      | some info =>
        by_cases hexp : info.expires_at < now
        · simp [verify_token, ht, hg, hexp]
        · simp [verify_token, ht, hg, hexp]
  · intro info hg hne hexp
    have he : (verify_token st now token).1 =
        { active_tokens := dictDel st.active_tokens token
          user_tokens := if dictGet st.user_tokens info.account = some token
                         then dictDel st.user_tokens info.account
                         else st.user_tokens } := by
      simp [verify_token, hne, hg, hexp]
    rw [he]
    refine ⟨dictGet_dictDel_self _ _, ?_⟩
    by_cases hc : dictGet st.user_tokens info.account = some token
    · rw [if_pos hc, dictGet_dictDel_self]
      simp
    · rw [if_neg hc]
      exact hc
  · intro info hg hne hexp
    simp [verify_token, hne, hg, hexp]
  · intro newTok account now2 hne hle
    have hact : dictGet (create_token st now newTok account).1.active_tokens newTok =
        some { account := account, created_at := now, expires_at := now + token_ttl } :=
      dictGet_dictSet_self _ _ _
    have hexp : ¬ ({ account := account, created_at := now
                     expires_at := now + token_ttl } : TokenInfo).expires_at < now2 := by
      simp only
      omega
    simp [verify_token, hne, hact, hexp]

/-- Witness for C7: a stored, unexpired token resolves to its account. -/
theorem verify_token_resolve_witness :
    verify_token
        { active_tokens := [("tokA", { account := "alice", created_at := 0, expires_at := 100 })]
          user_tokens := [("alice", "tokA")] } 50 "tokA" =
      ({ active_tokens := [("tokA", { account := "alice", created_at := 0, expires_at := 100 })]
         user_tokens := [("alice", "tokA")] }, some "alice") :=
  (verify_token_resolve
      { active_tokens := [("tokA", { account := "alice", created_at := 0, expires_at := 100 })]
        user_tokens := [("alice", "tokA")] } 50 "tokA").2.2.1
    { account := "alice", created_at := 0, expires_at := 100 }
    (by decide) (by decide) (by decide)
